import Mathlib

/-
Verification of the `s/old/new` message-replacement plugin (src/server/plugin.go).

The embedding works over `List Char` as the string model. Host API calls
(GetUser, GetChannel, GetPostThread, SearchPostsInTeam, UpdatePost) are
modelled as an explicit environment of pure functions; side effects
(SendEphemeralPost, UpdatePost) are recorded as an effect list.
-/

namespace ReplacePlugin

/-- Whitespace predicate of Go's `unicode.IsSpace` (the White_Space code
points), used by `strings.TrimSpace`. -/
def goIsSpace (c : Char) : Bool :=
  c = ' ' || ('\x09' ≤ c && c ≤ '\x0d') ||
  c = '\x85' || c = '\xa0' || c = ' ' ||
  (' ' ≤ c && c ≤ ' ') || c = ' ' || c = ' ' ||
  c = ' ' || c = ' ' || c = '　'

/-- `strings.TrimSpace`: drop leading and trailing whitespace. -/
def trimSpace (s : List Char) : List Char :=
  ((s.dropWhile goIsSpace).reverse.dropWhile goIsSpace).reverse

/-- `strings.HasPrefix pre s` on char lists. -/
def startsWith : List Char → List Char → Bool
  | [], _ => true
  | _ :: _, [] => false
  | p :: ps, c :: cs => p = c && startsWith ps cs

/-- The command marker `"s/"`. -/
def cmdMarker : List Char := ['s', '/']

/-- `strings.Split input "/"`: split on every `'/'`, keeping empty segments;
splitting the empty string yields `[[]]`, as in Go. -/
def splitOnSlash : List Char → List (List Char)
  | [] => [[]]
  | c :: rest =>
    if c = '/' then [] :: splitOnSlash rest
    else
      match splitOnSlash rest with
      | [] => [[c]]
      | seg :: segs => (c :: seg) :: segs

/-- The `input` value of `splitAndValidateInput`:
`strings.TrimSpace(strings.TrimPrefix(message, "s/"))`. -/
def parseRemainder (message : List Char) : List Char :=
  trimSpace (if startsWith cmdMarker message then message.drop 2 else message)

/-- The `strs` value of `splitAndValidateInput`: the remainder split on
every `'/'`. -/
def parseSegments (message : List Char) : List (List Char) :=
  splitOnSlash (parseRemainder message)

/-- `splitAndValidateInput` from plugin.go: strip the `"s/"` prefix
(`strings.TrimPrefix`), trim whitespace, reject an empty remainder, split on
`'/'`, and reject results with fewer than two segments or an empty first or
second segment.  `none` models the returned `error`. -/
def splitAndValidateInput (message : List Char) : Option (List (List Char)) :=
  let input := parseRemainder message
  if input = [] then none
  else
    match splitOnSlash input with
    | s0 :: s1 :: rest => if s0 = [] || s1 = [] then none else some (s0 :: s1 :: rest)
    | _ => none

/-! ### The `replace` primitive

plugin.go builds the pattern `\b(` + old + `)\b` with `regexp.MustCompile`
and calls `ReplaceAllString`.  The embedding models the RE2 fragment this
pattern can produce when `old` is made of literal characters, `.`, and
parentheses: every consuming element matches exactly one character, and
`\b` is a zero-width ASCII word-boundary assertion.  `old` containing other
metacharacters (`* + ? \ [ ] { } | ^ $`, or parentheses that close the
template's own group early) is classified `unsupported`: a valid Go pattern
outside the modelled fragment, about which the model makes no claim.
Inputs on which Go's compilation itself fails (so `MustCompile` panics) are
classified `goError`. -/

/-- One element of the modelled pattern body. -/
inductive Relem
  | wb
  | lit (c : Char)
  | dot
deriving DecidableEq

/-- Result of compiling `\b(` + old + `)\b`. -/
inductive CompileResult
  | ok (atoms : List Relem)
  | goError
  | unsupported
deriving DecidableEq

/-- Prepend an element to the body of an `ok` result. -/
def CompileResult.consElem (e : Relem) : CompileResult → CompileResult
  | .ok atoms => .ok (e :: atoms)
  | r => r

/-- Parse the characters of `old` as they sit inside the template
`\b(` + old + `)\b`.  `depth` counts open parentheses including the
template's own opening one (so it starts at 1); `canRep` records whether a
repetition operator would have an argument; `sawGroup` records whether any
parenthesis occurred (groups are outside the modelled fragment, since `$`
expansion in the replacement refers to capture spans).
`*`/`+` with no argument, and parentheses that leave the template
unbalanced, are genuine Go compile errors (`goError`); other
metacharacters yield `unsupported`. -/
def parseOld : List Char → Nat → Bool → Bool → CompileResult
  | [], depth, _, sawGroup =>
      if depth = 1 then (if sawGroup then .unsupported else .ok []) else .goError
  | '(' :: rest, depth, _, _ => parseOld rest (depth + 1) false true
  | ')' :: rest, depth, _, _ =>
      if depth = 0 then .goError else parseOld rest (depth - 1) true true
  | '.' :: rest, depth, _, sawGroup =>
      (parseOld rest depth true sawGroup).consElem .dot
  | c :: rest, depth, canRep, sawGroup =>
      if c = '*' || c = '+' then (if canRep then .unsupported else .goError)
      else if c = '?' || c = '\\' || c = '[' || c = ']' || c = '{' || c = '}' ||
              c = '|' || c = '^' || c = '$' then .unsupported
      else (parseOld rest depth true sawGroup).consElem (.lit c)

/-- RE2's `\b` uses the ASCII word characters `[0-9A-Za-z_]`. -/
def isWordChar (c : Char) : Bool :=
  ('a' ≤ c && c ≤ 'z') || ('A' ≤ c && c ≤ 'Z') || ('0' ≤ c && c ≤ '9') || c = '_'

/-- Word-character test on an optional character (string edges count as
non-word). -/
def isWordOpt : Option Char → Bool
  | none => false
  | some c => isWordChar c

/-- `\b` holds between `prev` and `next` iff exactly one side is a word
character. -/
def atBoundary (prev next : Option Char) : Bool := isWordOpt prev != isWordOpt next

/-- Match the body elements against a prefix of `s`, given the character
just before the current position (`prev`).  Returns the consumed
characters and the rest. -/
def matchElems : List Relem → Option Char → List Char → Option (List Char × List Char)
  | [], _, s => some ([], s)
  | .wb :: es, prev, s => if atBoundary prev s.head? then matchElems es prev s else none
  | .lit _ :: _, _, [] => none
  | .lit a :: es, _, c :: s =>
      if a = c then (matchElems es (some c) s).map (fun pr => (c :: pr.1, pr.2)) else none
  | .dot :: _, _, [] => none
  | .dot :: es, _, c :: s =>
      if c ≠ '\n' then (matchElems es (some c) s).map (fun pr => (c :: pr.1, pr.2)) else none

/-- The full pattern body of `\b(` + old + `)\b`: the atoms of `old`
bracketed by word-boundary assertions. -/
def wordPat (atoms : List Relem) : List Relem := .wb :: atoms ++ [.wb]

/-- Characters allowed in a `$name` reference in a replacement template
(ASCII approximation of Go's letter/digit/underscore rule). -/
def nameChar (c : Char) : Bool := c.isAlpha || c.isDigit || c = '_'

/-- Value of a `$name` reference.  For the modelled pattern, capture groups
0 and 1 both span the whole match; every other name is unset and expands to
the empty string, as in Go. -/
def refValue (nm matched : List Char) : List Char :=
  if nm = ['0'] || nm = ['1'] then matched else []

/-- Parse the name following a `$` in a replacement template: either
`{name}` or a maximal run of name characters.  `none` means the `$` is
malformed and is copied verbatim. -/
def extractRef : List Char → Option (List Char × List Char)
  | '{' :: rest =>
      let nm := rest.takeWhile nameChar
      if nm = [] then none
      else
        match rest.dropWhile nameChar with
        | '}' :: r => some (nm, r)
        | _ => none
  | s =>
      let nm := s.takeWhile nameChar
      if nm = [] then none else some (nm, s.dropWhile nameChar)

/-- Fueled expansion of a replacement template against a match
(`Regexp.expand` in Go's regexp package).  The fuel is only a termination
device; `template.length` steps always suffice. -/
def expandReplF : Nat → List Char → List Char → List Char
  | 0, t, _ => t
  | _ + 1, [], _ => []
  | fuel + 1, '$' :: rest, matched =>
      match rest with
      | '$' :: r => '$' :: expandReplF fuel r matched
      | _ =>
        match extractRef rest with
        | some (nm, r) => refValue nm matched ++ expandReplF fuel r matched
        | none => '$' :: expandReplF fuel rest matched
  | fuel + 1, c :: rest, matched => c :: expandReplF fuel rest matched

/-- Expand the replacement template `new` against a match. -/
def expandRepl (template matched : List Char) : List Char :=
  expandReplF template.length template matched

/-- The character preceding the position right after a match. -/
def lastCharOf (m : List Char) (prev : Option Char) : Option Char :=
  match m.getLast? with
  | some c => some c
  | none => prev

/-- Fueled scan of `ReplaceAllString`: at each position try the pattern;
on a non-empty match emit the expanded replacement and continue after the
match; on an empty match emit the replacement and advance one character;
otherwise copy one character.  `s.length + 1` fuel always suffices. -/
def replAllF (body : List Relem) (new : List Char) : Nat → Option Char → List Char → List Char
  | 0, _, s => s
  | fuel + 1, prev, s =>
    match matchElems body prev s with
    | some ([], _) =>
      match s with
      | [] => expandRepl new []
      | c :: rest2 => expandRepl new [] ++ c :: replAllF body new fuel (some c) rest2
    | some (m, rest) => expandRepl new m ++ replAllF body new fuel (lastCharOf m prev) rest
    | none =>
      match s with
      | [] => []
      | c :: rest2 => c :: replAllF body new fuel (some c) rest2

/-- Result of the `replace` function.  `panicked` models the
`regexp.MustCompile` panic on an invalid pattern; `unsupported` marks
patterns outside the modelled fragment. -/
inductive RepResult
  | out (s : List Char)
  | panicked
  | unsupported
deriving DecidableEq

/-- `replace` from plugin.go:
`regexp.MustCompile("\\b(" + old + ")\\b").ReplaceAllString(str, new)`. -/
def replace (str old new : List Char) : RepResult :=
  match parseOld old 1 false false with
  | .ok atoms => .out (replAllF (wordPat atoms) new (str.length + 1) none str)
  | .goError => .panicked
  | .unsupported => .unsupported

/-- Does `body` match at some position of `s`, scanning from the position
whose preceding character is `prev`? -/
def hasMatchFrom (body : List Relem) : Option Char → List Char → Bool
  | prev, [] => (matchElems body prev []).isSome
  | prev, c :: rest =>
      (matchElems body prev (c :: rest)).isSome || hasMatchFrom body (some c) rest

/-- Does the whole-word pattern of `old` match anywhere in `s`?  `none`
when `old` is not in the modelled fragment. -/
def hasWholeWordMatch (s old : List Char) : Option Bool :=
  match parseOld old 1 false false with
  | .ok atoms => some (hasMatchFrom (wordPat atoms) none s)
  | _ => none

/-- Modelled from the spec (§9's remediation wording): whole-word
replacement that treats `old` as a literal string — the same boundary-
delimited scan with every character of `old` taken literally.  Used only as
the comparison point for the pattern-injection claim. -/
def literalWholeWordReplace (str old new : List Char) : List Char :=
  replAllF (wordPat (old.map Relem.lit)) new (str.length + 1) none str

/-! ### Host data model and environment -/

/-- The fields of `model.User` the plugin consumes. -/
structure User where
  id : String
  username : String
deriving DecidableEq

/-- The fields of `model.Channel` the plugin consumes. -/
structure Channel where
  teamId : String
deriving DecidableEq

/-- The fields of `model.Post` the plugin consumes.  `createAt` is the
millisecond creation timestamp (a non-negative Go int64). -/
structure Post where
  id : String
  userId : String
  channelId : String
  rootId : String
  message : List Char
  createAt : Nat
deriving DecidableEq

/-- The host plugin API as a pure environment.  Lookup errors are `none`
(for calls whose error value is discarded) or `Except.error` carrying the
`err.Error()` string (for calls whose error text the plugin forwards).
`getPostThread` yields the thread's posts in an arbitrary host order; Go
receives them as an unordered map and the plugin sorts them itself.
`searchPostsInTeam` abstracts `SearchPostsInTeam` with the
`from:<username>` search parameter, returning the host-ranked results. -/
structure Env where
  getUser : String → Option User
  getChannel : String → Option Channel
  getPostThread : String → Except String (List Post)
  searchPostsInTeam : (teamId : String) → (username : String) → Except String (List Post)
  updatePost : Post → Option Post

/-- The ephemeral notification post built by `MessageWillBePosted`
(`model.Post{ChannelId: ..., CreateAt: model.GetMillis(), RootId: ...}`).
The wall-clock `CreateAt` field is not modelled. -/
structure Notification where
  channelId : String
  rootId : String
  message : List Char
deriving DecidableEq

/-- Side effects the hook performs through the host API, in order. -/
inductive Effect
  | sendEphemeral (userId : String) (n : Notification)
  | updatePost (p : Post)
deriving DecidableEq

/-- `noPostsFoundError` from plugin.go. -/
def noPostsFoundError : String := "`s/ Command: No previous post to be replaced.`"

/-- `usage` from plugin.go. -/
def usage : String := "Usage: s/\x7btext to be replaced\x7d/\x7bnew text\x7d"

/-- The dismissal reason string returned by the hook. -/
def dismissReason : String := "plugin.message_will_be_posted.dismiss_post"

/-! ### getLastPost -/

/-- One step of the descending insertion: place `p` before the first
element whose `createAt` is at most `p`'s. -/
def insertByCreateAt (p : Post) : List Post → List Post
  | [] => [p]
  | q :: t => if q.createAt ≤ p.createAt then p :: q :: t else q :: insertByCreateAt p t

/-- `PostList.SortByCreateAt` sorts the thread newest-first
(`sort.Slice` with `CreateAt > CreateAt`).  Go's unstable sort over an
arbitrary map-iteration order is modelled by a deterministic insertion
sort; every theorem conclusion below is independent of how ties are
ordered. -/
def sortByCreateAt (l : List Post) : List Post := l.foldr insertByCreateAt []

/-- `getLastPost` from plugin.go.  With a non-empty `rootId` it fetches the
thread, sorts it newest-first, and returns the first post by the invoking
user; otherwise it searches the team for the user's posts and returns the
first result.  The `String` component is the `errId` ("" on success). -/
def getLastPost (env : Env) (user : User) (teamId rootId : String) :
    Option Post × String :=
  if rootId ≠ "" then
    match env.getPostThread rootId with
    | .error e => (none, e)
    | .ok posts =>
      match (sortByCreateAt posts).find? (fun p => p.userId == user.id) with
      | some p => (some p, "")
      | none => (none, noPostsFoundError)
  else
    match env.searchPostsInTeam teamId user.username with
    | .error e => (none, e)
    | .ok [] => (none, noPostsFoundError)
    | .ok (p :: _) => (some p, "")

/-! ### MessageWillBePosted -/

/-- Result of one run of the hook.  `done effects post reason` is a normal
return of `(post, reason)` after performing `effects`; `panicked` models a
Go runtime panic (`MustCompile` on an invalid pattern, or the nil-pointer
dereference reachable when a host error string is empty); `unsupported`
marks runs whose pattern falls outside the modelled regexp fragment. -/
inductive HookOutcome
  | done (effects : List Effect) (post : Option Post) (reason : String)
  | panicked
  | unsupported
deriving DecidableEq

/-- The message of the invalid-format notice:
`fmt.Sprintf("Invalid command format. %s", usage)`. -/
def invalidFormatMsg : List Char := ("Invalid command format. " ++ usage).toList

/-- The message of the success notice:
```s/ Replaced "old" for "new"``. -/
def successMsg (old new : List Char) : List Char :=
  "s/ Replaced \"".toList ++ old ++ "\" for \"".toList ++ new ++ ['"']

/-- `MessageWillBePosted` from plugin.go, as a function of the environment
and the incoming post. -/
def MessageWillBePosted (env : Env) (post : Post) : HookOutcome :=
  let trimmedMessage := trimSpace post.message
  if ¬ startsWith cmdMarker trimmedMessage then .done [] none ""
  else
    let notif := fun msg => Notification.mk post.channelId post.rootId msg
    match splitAndValidateInput trimmedMessage with
    | none =>
        .done [.sendEphemeral post.userId (notif invalidFormatMsg)] none dismissReason
    | some strs =>
      let old := strs.getD 0 []
      let new := strs.getD 1 []
      match env.getUser post.userId with
      | none => .done [] none ""
      | some user =>
        match env.getChannel post.channelId with
        | none => .done [] none ""
        | some ch =>
          match getLastPost env user ch.teamId post.rootId with
          | (lastPostOpt, errId) =>
            if errId ≠ "" then
              .done [.sendEphemeral user.id (notif errId.toList)] none dismissReason
            else
              match lastPostOpt with
              | none => .panicked
              | some lastPost =>
                match replace lastPost.message old new with
                | .panicked => .panicked
                | .unsupported => .unsupported
                | .out newMsg =>
                  let updated := { lastPost with message := newMsg }
                  match env.updatePost updated with
                  | none => .done [.updatePost updated] none ""
                  | some _ =>
                      .done [.updatePost updated,
                             .sendEphemeral user.id (notif (successMsg old new))]
                        none dismissReason

/-! ### Concrete fixtures used by witnesses and counterexamples -/

/-- A host environment in which every call succeeds: one user, one channel,
a team-wide search returning a single post, and a successful update. -/
def envHappy : Env where
  getUser := fun _ => some ⟨"u1", "alice"⟩
  getChannel := fun _ => some ⟨"t1"⟩
  getPostThread := fun _ => .ok []
  searchPostsInTeam := fun _ _ =>
    .ok [⟨"p1", "u1", "c1", "", "message to bee replaced".toList, 5⟩]
  updatePost := fun p => some p

/-- A command post by user `u1` in channel `c1`, outside any thread. -/
def cmdPost (msg : List Char) : Post := ⟨"p9", "u1", "c1", "", msg, 9⟩

/-- A thread fixture: one post by another user, two by `u1`, newest last. -/
def threadPosts : List Post :=
  [⟨"a", "u2", "c1", "r1", "x".toList, 10⟩,
   ⟨"b", "u1", "c1", "r1", "y".toList, 3⟩,
   ⟨"c", "u1", "c1", "r1", "z".toList, 7⟩]

/-- `envHappy` with a populated thread. -/
def threadEnv : Env := { envHappy with getPostThread := fun _ => .ok threadPosts }

/-! ## Theorems -/

/-! ### Parser lemmas -/

theorem splitOnSlash_ne_nil (s : List Char) : splitOnSlash s ≠ [] := by
  induction s with
  | nil => simp [splitOnSlash]
  | cons c rest ih =>
    simp only [splitOnSlash]
    split
    · simp
    · split <;> simp

theorem splitOnSlash_no_slash (s : List Char) (h : '/' ∉ s) : splitOnSlash s = [s] := by
  induction s with
  | nil => rfl
  | cons c rest ih =>
    have hc : ¬ c = '/' := fun e => h (by rw [e]; exact List.mem_cons_self _ _)
    have hrest : '/' ∉ rest := fun hr => h (List.mem_cons_of_mem _ hr)
    simp only [splitOnSlash, if_neg hc, ih hrest]

theorem splitOnSlash_append (a b : List Char) (h : '/' ∉ a) :
    splitOnSlash (a ++ '/' :: b) = a :: splitOnSlash b := by
  induction a with
  | nil => simp [splitOnSlash]
  | cons c a' ih =>
    have hc : ¬ c = '/' := fun e => h (by rw [e]; exact List.mem_cons_self _ _)
    have ha' : '/' ∉ a' := fun hr => h (List.mem_cons_of_mem _ hr)
    simp only [List.cons_append, splitOnSlash, if_neg hc, List.append_eq, ih ha']

theorem dropWhile_head_false (p : Char → Bool) (s : List Char)
    (h : ∀ c, s.head? = some c → p c = false) : s.dropWhile p = s := by
  cases s with
  | nil => rfl
  | cons c t => simp [List.dropWhile_cons, h c rfl]

theorem trimSpace_eq_self (s : List Char)
    (h1 : ∀ c, s.head? = some c → goIsSpace c = false)
    (h2 : ∀ c, s.getLast? = some c → goIsSpace c = false) :
    trimSpace s = s := by
  unfold trimSpace
  rw [dropWhile_head_false _ _ h1]
  rw [dropWhile_head_false _ _ (fun c hc => h2 c (by rwa [List.head?_reverse] at hc))]
  exact List.reverse_reverse s

theorem trimSpace_all_space (s : List Char) (h : ∀ c ∈ s, goIsSpace c = true) :
    trimSpace s = [] := by
  unfold trimSpace
  rw [List.dropWhile_eq_nil_iff.mpr h]
  rfl

/-! ### C4 -/

/-- C4 (amended): for every command message `s/<old>/<new>` where `<old>`
and `<new>` are non-empty, contain no `'/'`, `<old>` does not begin with a
whitespace character, and `<new>` does not end with one,
`splitAndValidateInput` succeeds and yields exactly the pair
`(old, new)`. -/
theorem C4_parse_valid_command (old new : List Char)
    (ho : old ≠ []) (hn : new ≠ [])
    (hos : '/' ∉ old) (hns : '/' ∉ new)
    (hhead : ∀ c, old.head? = some c → goIsSpace c = false)
    (hlast : ∀ c, new.getLast? = some c → goIsSpace c = false) :
    splitAndValidateInput ('s' :: '/' :: (old ++ '/' :: new)) = some [old, new] := by
  have hrem : parseRemainder ('s' :: '/' :: (old ++ '/' :: new)) = old ++ '/' :: new := by
    unfold parseRemainder
    have hpre : startsWith cmdMarker ('s' :: '/' :: (old ++ '/' :: new)) = true := by
      simp [startsWith, cmdMarker]
    rw [if_pos hpre]
    show trimSpace (old ++ '/' :: new) = old ++ '/' :: new
    refine trimSpace_eq_self _ ?_ ?_
    · intro c hc
      cases old with
      | nil => exact absurd rfl ho
      | cons a t =>
        have : a = c := by simpa using hc
        exact this ▸ hhead a rfl
    · intro c hc
      rw [List.getLast?_append_of_ne_nil _ (List.cons_ne_nil _ _)] at hc
      have : ('/' :: new).getLast? = new.getLast? := by
        have : '/' :: new = ['/'] ++ new := rfl
        rw [this, List.getLast?_append_of_ne_nil _ hn]
      rw [this] at hc
      exact hlast c hc
  have hsplit : splitOnSlash (old ++ '/' :: new) = [old, new] := by
    rw [splitOnSlash_append _ _ hos, splitOnSlash_no_slash _ hns]
  unfold splitAndValidateInput
  rw [hrem]
  have hne : old ++ '/' :: new ≠ [] := by
    cases old <;> simp
  rw [if_neg hne, hsplit]
  have h0 : (old = [] || new = []) = false := by
    simp [ho, hn]
  simp [h0]

/-- Witness for C4: the amended theorem applied at `old = "a"`,
`new = "b"`. -/
theorem C4_parse_valid_command_witness :
    splitAndValidateInput ('s' :: '/' :: (['a'] ++ '/' :: ['b'])) = some [['a'], ['b']] :=
  C4_parse_valid_command ['a'] ['b'] (by decide) (by decide) (by decide) (by decide)
    (by intro c hc; simp at hc; subst hc; decide)
    (by intro c hc; simp at hc; subst hc; decide)

/-- Counterexample for C4 as stated: with `old = " a"` (non-empty, no `'/'`)
and `new = "b"`, the parser succeeds but yields `("a", "b")`, not
`(" a", "b")`: whitespace after the prefix is trimmed away. -/
theorem C4_counterexample :
    splitAndValidateInput "s/ a/b".toList = some ["a".toList, "b".toList] ∧
    some (["a".toList, "b".toList] : List (List Char)) ≠
      some ([" a".toList, "b".toList] : List (List Char)) := by
  exact ⟨rfl, by decide⟩

/-! ### C8 -/

/-- C8: parsing fails for `s/`, `s//`, `s/bad`, and for every message whose
remainder after the `s/` prefix is only whitespace; and `splitAndValidateInput`
returns an error exactly when the remainder is empty, fewer than two
segments result, or the first or second segment is empty. -/
theorem C8_parse_failure_cases :
    splitAndValidateInput "s/".toList = none ∧
    splitAndValidateInput "s//".toList = none ∧
    splitAndValidateInput "s/bad".toList = none ∧
    (∀ ws : List Char, (∀ c ∈ ws, goIsSpace c = true) →
        splitAndValidateInput ('s' :: '/' :: ws) = none) ∧
    (∀ m : List Char,
        splitAndValidateInput m = none ↔
          (parseRemainder m = [] ∨ (parseSegments m).length < 2 ∨
           (parseSegments m).getD 0 [] = [] ∨ (parseSegments m).getD 1 [] = [])) := by
  refine ⟨rfl, rfl, rfl, ?_, ?_⟩
  · intro ws hws
    have hrem : parseRemainder ('s' :: '/' :: ws) = [] := by
      unfold parseRemainder
      have hpre : startsWith cmdMarker ('s' :: '/' :: ws) = true := by
        simp [startsWith, cmdMarker]
      rw [if_pos hpre]
      exact trimSpace_all_space ws hws
    unfold splitAndValidateInput
    rw [hrem]
    rfl
  · intro m
    unfold splitAndValidateInput parseSegments
    by_cases h : parseRemainder m = []
    · simp [h, splitOnSlash]
    · cases hxs : splitOnSlash (parseRemainder m) with
      | nil => exact absurd hxs (splitOnSlash_ne_nil _)
      | cons s0 tl =>
        cases tl with
        | nil => simp [h, hxs]
        | cons s1 rest =>
          by_cases h0 : s0 = [] <;> by_cases h1 : s1 = [] <;>
            simp [h, hxs, h0, h1]

/-- Witness for C8: the whitespace-remainder case at `ws = " "` and the
characterization at `m = "s/a/b"`. -/
theorem C8_parse_failure_cases_witness :
    splitAndValidateInput ('s' :: '/' :: [' ']) = none :=
  C8_parse_failure_cases.2.2.2.1 [' '] (by decide)

/-! ### C10 -/

/-- C10: a message whose trimmed text does not start with `s/` makes the
hook return the allow-unmodified result `(nil, "")` with no side effects,
for every environment (so no lookup, update, or notice is performed). -/
theorem C10_non_command_passthrough (env : Env) (post : Post)
    (h : startsWith cmdMarker (trimSpace post.message) = false) :
    MessageWillBePosted env post = .done [] none "" := by
  unfold MessageWillBePosted
  simp [h]

/-- Witness for C10 at a concrete message containing `s/` but not starting
with it. -/
theorem C10_non_command_passthrough_witness :
    MessageWillBePosted envHappy (cmdPost "this is not s/a/command".toList) =
      .done [] none "" :=
  C10_non_command_passthrough envHappy (cmdPost "this is not s/a/command".toList) rfl

/-! ### C9 -/

/-- C9: a command with more than one delimiter after the prefix still
parses, with the first two segments used as `(old, new)` — provided they
are non-empty — and the trailing segments are ignored: the hook's result
depends on the parsed segments only through the first two. -/
theorem C9_trailing_segments_ignored :
    (∀ m : List Char, 3 ≤ (parseSegments m).length →
        (parseSegments m).getD 0 [] ≠ [] → (parseSegments m).getD 1 [] ≠ [] →
        splitAndValidateInput m = some (parseSegments m)) ∧
    (∀ (env : Env) (post : Post) (m' : List Char) (strs strs' : List (List Char)),
        startsWith cmdMarker (trimSpace post.message) = true →
        startsWith cmdMarker (trimSpace m') = true →
        splitAndValidateInput (trimSpace post.message) = some strs →
        splitAndValidateInput (trimSpace m') = some strs' →
        strs.getD 0 [] = strs'.getD 0 [] →
        strs.getD 1 [] = strs'.getD 1 [] →
        MessageWillBePosted env post = MessageWillBePosted env { post with message := m' }) := by
  constructor
  · intro m hlen h0 h1
    unfold parseSegments at hlen h0 h1 ⊢
    unfold splitAndValidateInput
    by_cases h : parseRemainder m = []
    · rw [h] at hlen; simp [splitOnSlash] at hlen
    · cases hxs : splitOnSlash (parseRemainder m) with
      | nil => exact absurd hxs (splitOnSlash_ne_nil _)
      | cons s0 tl =>
        cases tl with
        | nil => rw [hxs] at hlen; simp at hlen
        | cons s1 rest =>
          rw [hxs] at h0 h1
          simp only [List.getD_cons_zero, List.getD_cons_succ] at h0 h1
          simp [h, hxs, h0, h1]
  · intro env post m' strs strs' hp1 hp2 hs1 hs2 e0 e1
    have hm : ({ post with message := m' } : Post).message = m' := rfl
    have hu : ({ post with message := m' } : Post).userId = post.userId := rfl
    have hc : ({ post with message := m' } : Post).channelId = post.channelId := rfl
    have hr : ({ post with message := m' } : Post).rootId = post.rootId := rfl
    simp only [MessageWillBePosted, hm, hu, hc, hr, hp1, hp2, hs1, hs2, e0, e1]

/-- Witness for C9 at `m = "s/a/b/c"`: three segments, parse succeeds. -/
theorem C9_trailing_segments_ignored_witness :
    splitAndValidateInput "s/a/b/c".toList = some (parseSegments "s/a/b/c".toList) :=
  C9_trailing_segments_ignored.1 "s/a/b/c".toList (by decide) (by decide) (by decide)

/-! ### C1 -/

/-- C1 (amended): once the trimmed message has the `s/` prefix, the
parse-failure, lookup-error (`errId ≠ ""`), and success terminals dismiss
the post (reason `dismiss_post`), but author-lookup failure,
channel-lookup failure, and post-update failure return the
allow-unmodified result `(nil, "")` — the original message is not
suppressed on those three paths. -/
theorem C1_terminal_outcomes (env : Env) (post : Post)
    (hp : startsWith cmdMarker (trimSpace post.message) = true) :
    (splitAndValidateInput (trimSpace post.message) = none →
        MessageWillBePosted env post =
          .done [.sendEphemeral post.userId ⟨post.channelId, post.rootId, invalidFormatMsg⟩]
            none dismissReason) ∧
    (∀ strs, splitAndValidateInput (trimSpace post.message) = some strs →
        env.getUser post.userId = none →
        MessageWillBePosted env post = .done [] none "") ∧
    (∀ strs user, splitAndValidateInput (trimSpace post.message) = some strs →
        env.getUser post.userId = some user →
        env.getChannel post.channelId = none →
        MessageWillBePosted env post = .done [] none "") ∧
    (∀ strs user ch e, splitAndValidateInput (trimSpace post.message) = some strs →
        env.getUser post.userId = some user →
        env.getChannel post.channelId = some ch →
        getLastPost env user ch.teamId post.rootId = (none, e) → e ≠ "" →
        MessageWillBePosted env post =
          .done [.sendEphemeral user.id ⟨post.channelId, post.rootId, e.toList⟩]
            none dismissReason) ∧
    (∀ strs user ch lastPost newMsg,
        splitAndValidateInput (trimSpace post.message) = some strs →
        env.getUser post.userId = some user →
        env.getChannel post.channelId = some ch →
        getLastPost env user ch.teamId post.rootId = (some lastPost, "") →
        replace lastPost.message (strs.getD 0 []) (strs.getD 1 []) = .out newMsg →
        env.updatePost { lastPost with message := newMsg } = none →
        MessageWillBePosted env post =
          .done [.updatePost { lastPost with message := newMsg }] none "") ∧
    (∀ strs user ch lastPost newMsg p',
        splitAndValidateInput (trimSpace post.message) = some strs →
        env.getUser post.userId = some user →
        env.getChannel post.channelId = some ch →
        getLastPost env user ch.teamId post.rootId = (some lastPost, "") →
        replace lastPost.message (strs.getD 0 []) (strs.getD 1 []) = .out newMsg →
        env.updatePost { lastPost with message := newMsg } = some p' →
        MessageWillBePosted env post =
          .done [.updatePost { lastPost with message := newMsg },
                 .sendEphemeral user.id
                   ⟨post.channelId, post.rootId, successMsg (strs.getD 0 []) (strs.getD 1 [])⟩]
            none dismissReason) := by
  refine ⟨?_, ?_, ?_, ?_, ?_, ?_⟩
  · intro hparse
    simp [MessageWillBePosted, hp, hparse]
  · intro strs hparse hu
    simp [MessageWillBePosted, hp, hparse, hu]
  · intro strs user hparse hu hch
    simp [MessageWillBePosted, hp, hparse, hu, hch]
  · intro strs user ch e hparse hu hch hlp he
    simp [MessageWillBePosted, hp, hparse, hu, hch, hlp, he]
  · intro strs user ch lastPost newMsg hparse hu hch hlp hrep hup
    simp only [List.getD_eq_getElem?_getD] at hrep
    simp [MessageWillBePosted, hp, hparse, hu, hch, hlp, hrep, hup]
  · intro strs user ch lastPost newMsg p' hparse hu hch hlp hrep hup
    simp only [List.getD_eq_getElem?_getD] at hrep
    simp [MessageWillBePosted, hp, hparse, hu, hch, hlp, hrep, hup]

/-- Witness for C1: the update-failure conjunct at a concrete environment
whose `UpdatePost` fails — the hook attempts the update and then returns
the allow-unmodified result. -/
theorem C1_terminal_outcomes_witness :
    MessageWillBePosted { envHappy with updatePost := fun _ => none }
        (cmdPost "s/bee/be".toList) =
      .done [.updatePost ⟨"p1", "u1", "c1", "", "message to be replaced".toList, 5⟩]
        none "" :=
  (C1_terminal_outcomes { envHappy with updatePost := fun _ => none }
      (cmdPost "s/bee/be".toList) rfl).2.2.2.2.1
    ["bee".toList, "be".toList] ⟨"u1", "alice"⟩ ⟨"t1"⟩
    ⟨"p1", "u1", "c1", "", "message to bee replaced".toList, 5⟩
    "message to be replaced".toList rfl rfl rfl rfl rfl rfl

/-- Counterexample for C1 as stated: a recognized `s/` command whose
author lookup fails ends in the allow-unmodified result `(nil, "")`, not
in a dismissal. -/
theorem C1_counterexample :
    startsWith cmdMarker (trimSpace (cmdPost "s/bee/be".toList).message) = true ∧
    MessageWillBePosted { envHappy with getUser := fun _ => none }
        (cmdPost "s/bee/be".toList) = .done [] none "" ∧
    ("" : String) ≠ dismissReason := by
  exact ⟨rfl, rfl, by decide⟩

/-! ### C2 -/

/-- C2: `old` is interpolated into the pattern unescaped, so a
metacharacter in `old` is pattern syntax, not literal text: with
`old = "."` the pattern matches any single boundary-delimited character,
and `replace` differs from literal whole-word substitution of `"."`. -/
theorem C2_pattern_injection :
    replace "a b".toList ".".toList "x".toList = .out "xxx".toList ∧
    literalWholeWordReplace "a b".toList ".".toList "x".toList = "a b".toList ∧
    ("xxx".toList : List Char) ≠ "a b".toList := by
  exact ⟨rfl, rfl, by decide⟩

/-! ### C3 -/

/-- C3: `replace` is not a total function of its string arguments: with
`old = "("` pattern compilation fails and `MustCompile` panics, for every
subject string and replacement, and the command `s/(/x` aborts the hook
instead of producing an outcome. -/
theorem C3_replace_panics_on_invalid_pattern :
    (∀ str new : List Char, replace str "(".toList new = .panicked) ∧
    MessageWillBePosted envHappy (cmdPost "s/(/x".toList) = .panicked := by
  exact ⟨fun _ _ => rfl, rfl⟩

/-! ### C6 -/

/-- C6: whole-word replace never matches inside a larger word: replacing
`"typ"` with `"type"` leaves the `typ` inside `typical` untouched. -/
theorem C6_whole_word_boundary :
    replace "what if I typ the word typical".toList "typ".toList "type".toList =
      .out "what if I type the word typical".toList := rfl

/-! ### C7 -/

theorem hasMatchFrom_false_head (body : List Relem) (prev : Option Char)
    (s : List Char) (h : hasMatchFrom body prev s = false) :
    matchElems body prev s = none := by
  cases hopt : matchElems body prev s with
  | none => rfl
  | some v =>
    cases s with
    | nil => unfold hasMatchFrom at h; rw [hopt] at h; simp at h
    | cons c s' => unfold hasMatchFrom at h; rw [hopt] at h; simp at h

theorem hasMatchFrom_false_tail (body : List Relem) (prev : Option Char)
    (c : Char) (s' : List Char) (h : hasMatchFrom body prev (c :: s') = false) :
    hasMatchFrom body (some c) s' = false := by
  unfold hasMatchFrom at h
  exact (Bool.or_eq_false_iff.mp h).2

/-- A string in which the pattern matches nowhere is left unchanged by the
replacement scan. -/
theorem replAllF_no_match (body : List Relem) (new : List Char) :
    ∀ (fuel : Nat) (prev : Option Char) (s : List Char), s.length < fuel →
      hasMatchFrom body prev s = false → replAllF body new fuel prev s = s := by
  intro fuel
  induction fuel with
  | zero => intro prev s h _; exact absurd h (Nat.not_lt_zero _)
  | succ n ih =>
    intro prev s hlen hnm
    have hm : matchElems body prev s = none := hasMatchFrom_false_head _ _ _ hnm
    cases s with
    | nil => simp [replAllF, hm]
    | cons c s' =>
      have htl : hasMatchFrom body (some c) s' = false :=
        hasMatchFrom_false_tail _ _ _ _ hnm
      have hlen' : s'.length < n := by simpa using Nat.lt_of_succ_lt_succ hlen
      simp only [replAllF, hm]
      rw [ih (some c) s' hlen' htl]

/-- C7 (amended): the replacement is idempotent whenever its result
contains no whole-word match of `old` — the hypothesis must be on the
result, not on `new`, because removing a match can splice `new` together
with the remaining text into a fresh whole-word occurrence of `old`. -/
theorem C7_idempotent_when_result_matchfree (s old new t : List Char)
    (h1 : replace s old new = .out t)
    (h2 : hasWholeWordMatch t old = some false) :
    replace t old new = .out t := by
  unfold replace at h1 ⊢
  unfold hasWholeWordMatch at h2
  cases hc : parseOld old 1 false false with
  | goError => rw [hc] at h1; cases h1
  | unsupported => rw [hc] at h1; cases h1
  | ok atoms =>
    rw [hc] at h2
    have hm : hasMatchFrom (wordPat atoms) none t = false := by simpa using h2
    exact congrArg RepResult.out
      (replAllF_no_match _ _ _ _ _ (Nat.lt_succ_self _) hm)

/-- Witness for C7 (amended) at `s = "x y"`, `old = "x"`, `new = "q"`. -/
theorem C7_idempotent_witness :
    replace "q y".toList "x".toList "q".toList = .out "q y".toList :=
  C7_idempotent_when_result_matchfree "x y".toList "x".toList "q".toList
    "q y".toList rfl rfl

/-- Counterexample for C7 as stated: `old = "a b"`, `new = "a"`,
`s = "a b b"`.  `new` contains no whole-word occurrence of `old`, yet the
first replacement yields `"a b"` and the second collapses it to `"a"`. -/
theorem C7_counterexample :
    hasWholeWordMatch "a".toList "a b".toList = some false ∧
    replace "a b b".toList "a b".toList "a".toList = .out "a b".toList ∧
    replace "a b".toList "a b".toList "a".toList = .out "a".toList ∧
    ("a".toList : List Char) ≠ "a b".toList := by
  exact ⟨rfl, rfl, rfl, by decide⟩

/-! ### C5 -/

theorem insertByCreateAt_perm (p : Post) (l : List Post) :
    List.Perm (insertByCreateAt p l) (p :: l) := by
  induction l with
  | nil => exact List.Perm.refl _
  | cons q t ih =>
    unfold insertByCreateAt
    split
    · exact List.Perm.refl _
    · exact (List.Perm.cons q ih).trans (List.Perm.swap p q t)

theorem sortByCreateAt_perm (l : List Post) : List.Perm (sortByCreateAt l) l := by
  induction l with
  | nil => exact List.Perm.refl _
  | cons p t ih =>
    simp only [sortByCreateAt, List.foldr_cons] at ih ⊢
    exact (insertByCreateAt_perm p _).trans (List.Perm.cons p ih)

theorem insertByCreateAt_pairwise (p : Post) (l : List Post)
    (h : l.Pairwise (fun a b => b.createAt ≤ a.createAt)) :
    (insertByCreateAt p l).Pairwise (fun a b => b.createAt ≤ a.createAt) := by
  induction l with
  | nil => simp [insertByCreateAt]
  | cons q t ih =>
    unfold insertByCreateAt
    split
    case isTrue hq =>
      refine List.Pairwise.cons ?_ h
      intro b hb
      rcases List.mem_cons.mp hb with rfl | hbt
      · exact hq
      · exact le_trans (List.rel_of_pairwise_cons h hbt) hq
    case isFalse hq =>
      refine List.Pairwise.cons ?_ (ih h.tail)
      intro b hb
      rcases List.mem_cons.mp ((insertByCreateAt_perm p t).mem_iff.mp hb) with rfl | hbt
      · exact le_of_not_le hq
      · exact List.rel_of_pairwise_cons h hbt

theorem sortByCreateAt_pairwise (l : List Post) :
    (sortByCreateAt l).Pairwise (fun a b => b.createAt ≤ a.createAt) := by
  induction l with
  | nil => simp [sortByCreateAt]
  | cons p t ih =>
    simp only [sortByCreateAt, List.foldr_cons] at ih ⊢
    exact insertByCreateAt_pairwise p _ ih

/-- In a newest-first list, the first post by a given user has the maximal
timestamp among that user's posts. -/
theorem find?_userId_max (uid : String) :
    ∀ l : List Post, l.Pairwise (fun a b => b.createAt ≤ a.createAt) →
      ∀ p, l.find? (fun q => q.userId == uid) = some p →
      ∀ q ∈ l, q.userId = uid → q.createAt ≤ p.createAt := by
  intro l
  induction l with
  | nil => intro _ p hf; cases hf
  | cons x t ih =>
    intro hs p hf q hq hquid
    rw [List.find?_cons] at hf
    cases hx : x.userId == uid with
    | true =>
      rw [hx] at hf
      have hpx : x = p := Option.some.inj hf
      rcases List.mem_cons.mp hq with rfl | hqt
      · exact le_of_eq (congrArg Post.createAt hpx)
      · exact hpx ▸ List.rel_of_pairwise_cons hs hqt
    | false =>
      rw [hx] at hf
      rcases List.mem_cons.mp hq with rfl | hqt
      · exact absurd (beq_iff_eq.mpr hquid) (by simp [hx])
      · exact ih hs.tail p hf q hqt hquid

/-- C5: for a command issued as a thread reply (non-empty root id), the
target comes only from the fetched thread, is authored by the invoking
user, and has maximal creation timestamp among that user's posts in the
thread; when the thread has no post by the user the outcome is the
no-posts-found error.  (Ties in `createAt` are ordered arbitrarily by the
host's unstable sort; all conclusions here are tie-independent.) -/
theorem C5_thread_scope (env : Env) (user : User) (teamId rootId : String)
    (posts : List Post) (hroot : rootId ≠ "")
    (hthread : env.getPostThread rootId = .ok posts) :
    (∀ p, getLastPost env user teamId rootId = (some p, "") →
        p ∈ posts ∧ p.userId = user.id ∧
        ∀ q ∈ posts, q.userId = user.id → q.createAt ≤ p.createAt) ∧
    ((∀ q ∈ posts, q.userId ≠ user.id) →
        getLastPost env user teamId rootId = (none, noPostsFoundError)) ∧
    ((∃ q ∈ posts, q.userId = user.id) →
        ∃ p, getLastPost env user teamId rootId = (some p, "") ∧ p.userId = user.id) := by
  have hgl : getLastPost env user teamId rootId =
      (match (sortByCreateAt posts).find? (fun p => p.userId == user.id) with
       | some p => (some p, "")
       | none => (none, noPostsFoundError)) := by
    unfold getLastPost
    rw [if_pos hroot, hthread]
  refine ⟨?_, ?_, ?_⟩
  · intro p hp
    rw [hgl] at hp
    cases hf : (sortByCreateAt posts).find? (fun q => q.userId == user.id) with
    | none => rw [hf] at hp; simp at hp
    | some p' =>
      rw [hf] at hp
      have hpp : p' = p := by simpa using hp
      subst hpp
      refine ⟨?_, ?_, ?_⟩
      · exact (sortByCreateAt_perm posts).mem_iff.mp (List.mem_of_find?_eq_some hf)
      · simpa using List.find?_some hf
      · intro q hq hquid
        exact find?_userId_max user.id (sortByCreateAt posts)
          (sortByCreateAt_pairwise posts) p' hf q
          ((sortByCreateAt_perm posts).mem_iff.mpr hq) hquid
  · intro hnone
    rw [hgl]
    have hf : (sortByCreateAt posts).find? (fun q => q.userId == user.id) = none := by
      apply List.find?_eq_none.mpr
      intro x hx
      simp [hnone x ((sortByCreateAt_perm posts).mem_iff.mp hx)]
    rw [hf]
  · rintro ⟨q, hq, hquid⟩
    rw [hgl]
    cases hf : (sortByCreateAt posts).find? (fun r => r.userId == user.id) with
    | none =>
      exact absurd (beq_iff_eq.mpr hquid)
        (List.find?_eq_none.mp hf q ((sortByCreateAt_perm posts).mem_iff.mpr hq))
    | some p => exact ⟨p, rfl, by simpa using List.find?_some hf⟩

/-- Witness for C5: in the thread fixture, `u1`'s most recent thread post
(`createAt = 7`) is selected, and it dominates the user's other post. -/
theorem C5_thread_scope_witness :
    (⟨"c", "u1", "c1", "r1", "z".toList, 7⟩ : Post) ∈ threadPosts ∧
    (⟨"c", "u1", "c1", "r1", "z".toList, 7⟩ : Post).userId = "u1" ∧
    ∀ q ∈ threadPosts, q.userId = "u1" →
      q.createAt ≤ (⟨"c", "u1", "c1", "r1", "z".toList, 7⟩ : Post).createAt :=
  (C5_thread_scope threadEnv ⟨"u1", "alice"⟩ "t1" "r1" threadPosts
    (by decide) rfl).1 ⟨"c", "u1", "c1", "r1", "z".toList, 7⟩ rfl

end ReplacePlugin
